import Mathlib

/-!
Verification development for the docura Go documentation analyser.

The Go package `internal/analyser` walks parsed top-level declarations of a
Go package and produces a `PackageInfo` documentation model; the package
`internal/generator` post-processes that model (description enhancement and
example generation behind an LLM boundary).

This file gives a shallow embedding of those components:

* Go strings are Lean `String`s; the handful of `strings`-package functions
  the code uses (`HasPrefix`, `HasSuffix`, `Contains`, `TrimPrefix`, `Trim`,
  `TrimSpace`, `Split` on newline, `Join`, `ReplaceAll "\r\n" "\n"`) are
  re-implemented below on `String.data` so that every definition is
  executable and kernel-reducible.  Go's `len` on a string counts bytes;
  this is `goLen` below.
* The subset of `go/ast` the analyser consumes is the inductive `Expr`
  together with `Field`, `FuncType`, `FuncDecl`, `ValueSpec`, `TypeSpec`,
  `Spec`, `GenDecl`; the `go/doc` view of a package (the external
  Declaration Loader boundary) is `DocFunc`, `DocType`, `DocValue`,
  `DocPackage`.
* `parser.ParseDir` returns a Go *map* from package name to package.  Go
  map iteration order is unspecified (randomised between runs), so
  `analysePackage` takes the map's entries as a list in one possible
  iteration order; two runs over the same map may present permutations of
  the same entry list.
* The LLM calls of `internal/generator` are modelled by an `EnhanceOracle`
  supplying the result of each call (`none` models a call that returned an
  error; the Go code additionally ignores empty results, which is kept
  explicit in the definitions).

Field names follow the Go source, except that Go's field name `Type` is
rendered `typ` because `Type` is reserved in Lean.
-/

namespace Docura

/-! ### Go `strings` primitives -/

/-- Is `p` a prefix of `s` (character lists)?  Models `strings.HasPrefix`. -/
def pfxOf : List Char → List Char → Bool
  | [], _ => true
  | _ :: _, [] => false
  | p :: ps, c :: cs => p == c && pfxOf ps cs

/-- Does `s` contain `pat` as a contiguous substring?  Models `strings.Contains`. -/
def subOf (pat : List Char) : List Char → Bool
  | [] => pfxOf pat []
  | c :: cs => pfxOf pat (c :: cs) || subOf pat cs

/-- `strings.HasPrefix s pre`. -/
def goStartsWith (s pre : String) : Bool := pfxOf pre.data s.data

/-- `strings.HasSuffix s suf`. -/
def goHasSuffix (s suf : String) : Bool := pfxOf suf.data.reverse s.data.reverse

/-- `strings.Contains s sub`. -/
def goContains (s sub : String) : Bool := subOf sub.data s.data

/-- `strings.TrimPrefix s pre`: drop `pre` from the front of `s` when it is
a prefix, otherwise return `s` unchanged. -/
def goTrimPfx (s pre : String) : String :=
  if pfxOf pre.data s.data then ⟨s.data.drop pre.data.length⟩ else s

/-- `strings.TrimSpace` (ASCII whitespace; Go also trims further Unicode
space classes, which no input in this development uses). -/
def goTrimSpace (s : String) : String :=
  ⟨((s.data.dropWhile Char.isWhitespace).reverse.dropWhile Char.isWhitespace).reverse⟩

/-- `strings.Trim s cutset` for a one-character cutset. -/
def goTrimChar (s : String) (c : Char) : String :=
  ⟨((s.data.dropWhile (· == c)).reverse.dropWhile (· == c)).reverse⟩

/-- `strings.Split s "\n"`: split at every newline, keeping empty segments. -/
def splitNlAux : List Char → List Char → List String
  | acc, [] => [⟨acc.reverse⟩]
  | acc, '\n' :: cs => ⟨acc.reverse⟩ :: splitNlAux [] cs
  | acc, c :: cs => splitNlAux (c :: acc) cs

/-- `strings.Split doc "\n"`. -/
def splitNl (s : String) : List String := splitNlAux [] s.data

/-- `strings.Join parts sep`. -/
def goJoin (sep : String) : List String → String
  | [] => ""
  | [s] => s
  | s :: rest => s ++ sep ++ goJoin sep rest

/-- `strings.ReplaceAll s "\r\n" "\n"` (character-list worker). -/
def replaceCrLfAux : List Char → List Char
  | [] => []
  | '\r' :: '\n' :: rest => '\n' :: replaceCrLfAux rest
  | c :: rest => c :: replaceCrLfAux rest

/-- `strings.ReplaceAll s "\r\n" "\n"`. -/
def replaceCrLf (s : String) : String := ⟨replaceCrLfAux s.data⟩

/-- UTF-8 byte width of a character, as Go counts it. -/
def charUtf8Size (c : Char) : Nat :=
  if c.val < 0x80 then 1 else if c.val < 0x800 then 2 else if c.val < 0x10000 then 3 else 4

/-- Go's `len` on a string: its UTF-8 byte count. -/
def goLen (s : String) : Nat := s.data.foldl (fun n c => n + charUtf8Size c) 0

/-! ### String append lemmas used throughout -/

theorem strAppendData (a b : String) : (a ++ b).data = a.data ++ b.data := by
  cases a; cases b; rfl

theorem strAppendAssoc (a b c : String) : a ++ b ++ c = a ++ (b ++ c) := by
  cases a; cases b; cases c
  show String.mk _ = String.mk _
  rw [List.append_assoc]

theorem strAppendNil (a : String) : a ++ "" = a := by
  cases a
  show String.mk _ = String.mk _
  rw [List.append_nil]

theorem strNilAppend (a : String) : "" ++ a = a := rfl

/-! ### The `go/ast` subset consumed by the analyser

`Expr` covers exactly the shapes `typeToString`, `exprToString` and
`getTypeKind` distinguish; every other node kind is `otherExpr` (their
`default` switch cases).  A `Field` is an `ast.Field`: a name group with one
type and an optional tag literal. -/

mutual
inductive Expr where
  | ident (name : String)
  | star (x : Expr)
  | arrayT (elt : Expr)
  | mapT (key : Expr) (value : Expr)
  | selector (x : Expr) (sel : String)
  | interfaceT
  | structT (fields : List Field)
  | chanT
  | funcT
  | basicLit (value : String)
  | otherExpr

inductive Field where
  | mk (names : List String) (typ : Expr) (tag : Option String)
end

def Field.Names : Field → List String
  | .mk n _ _ => n

def Field.typ : Field → Expr
  | .mk _ t _ => t

def Field.Tag : Field → Option String
  | .mk _ _ tg => tg

/-- `ast.FuncType`: parameter and result field lists (each possibly `nil`). -/
structure FuncType where
  Params : Option (List Field)
  Results : Option (List Field)

/-- `ast.FuncDecl`.  The Go analyser guards `fn.Decl != nil && fn.Decl.Type != nil`
before using a declaration; the embedding folds the two nil checks into the
single `Option FuncDecl` of `DocFunc.Decl`, so `typ` is total here. -/
structure FuncDecl where
  Recv : Option (List Field)
  Name : String
  typ : FuncType

/-- `ast.ValueSpec`: a constant/variable name group.  `Values` entries are
`Option` because the Go code defends against nil expressions. -/
structure ValueSpec where
  Names : List String
  typ : Option Expr
  Values : List (Option Expr)

/-- `ast.TypeSpec`. -/
structure TypeSpec where
  Name : String
  typ : Expr

/-- `ast.Spec`: the analyser only distinguishes value specs and type specs. -/
inductive Spec where
  | valueSpec (vs : ValueSpec)
  | typeSpec (ts : TypeSpec)
  | importSpec

/-- `ast.GenDecl` (the part the analyser reads). -/
structure GenDecl where
  Specs : List Spec

/-! ### The `go/doc` view (Declaration Loader boundary) -/

/-- `doc.Func`: a function or method with attached doc text. -/
structure DocFunc where
  Name : String
  Doc : String
  Decl : Option FuncDecl

/-- `doc.Type`: a type with its declaration and its methods. -/
structure DocType where
  Name : String
  Doc : String
  Decl : Option GenDecl
  Methods : List DocFunc

/-- `doc.Value`: a constant or variable declaration group. -/
structure DocValue where
  Doc : String
  Decl : GenDecl

/-- One candidate package as the loader presents it: the `doc.Package`
content plus, per source file, the raw (quoted) import path literals.
The candidate's name is the map key it is stored under. -/
structure DocPackage where
  Doc : String
  Funcs : List DocFunc
  Types : List DocType
  Consts : List DocValue
  Vars : List DocValue
  FileImports : List (List String)

/-! ### The output model (`PackageInfo` and friends) -/

structure ParamInfo where
  Name : String
  typ : String
deriving DecidableEq, Repr

structure ReturnInfo where
  typ : String
  Description : String
deriving DecidableEq, Repr

structure FieldInfo where
  Name : String
  typ : String
  Tag : String
  Description : String
deriving DecidableEq, Repr

structure FunctionInfo where
  Name : String
  Signature : String
  Description : String
  Parameters : List ParamInfo
  Returns : List ReturnInfo
  Examples : List String
  IsExported : Bool
  IsMethod : Bool
  Receiver : String
deriving DecidableEq, Repr

structure TypeInfo where
  Name : String
  Kind : String
  Description : String
  Fields : List FieldInfo
  Methods : List String
  IsExported : Bool
deriving DecidableEq, Repr

structure ConstantInfo where
  Name : String
  typ : String
  Value : String
  Description : String
  IsExported : Bool
deriving DecidableEq, Repr

structure VariableInfo where
  Name : String
  typ : String
  Description : String
  IsExported : Bool
deriving DecidableEq, Repr

structure ExampleInfo where
  Name : String
  Code : String
  Doc : String
deriving DecidableEq, Repr

structure PackageInfo where
  Name : String
  Path : String
  Description : String
  Functions : List FunctionInfo
  Types : List TypeInfo
  Constants : List ConstantInfo
  Variables : List VariableInfo
  Examples : List ExampleInfo
  Imports : List String
deriving DecidableEq, Repr

/-! ### Leaf components -/

/-- `ast.IsExported`: first character upper case (`unicode.IsUpper`; ASCII
suffices for every input in this development). -/
def isExported (name : String) : Bool :=
  match name.data with
  | [] => false
  | c :: _ => c.isUpper

/-- `typeToString` (the Type Stringifier): recursive rendering of a type
expression; unrecognized shapes render as the literal `unknown`. -/
def typeToString : Expr → String
  | .ident name => name
  | .star x => "*" ++ typeToString x
  | .arrayT elt => "[]" ++ typeToString elt
  | .mapT key value => "map[" ++ typeToString key ++ "]" ++ typeToString value
  | .selector x sel => typeToString x ++ "." ++ sel
  | .interfaceT => "interface\x7b\x7d"
  | _ => "unknown"

/-- `exprToString`: value-expression rendering for constant initialisers. -/
def exprToString : Expr → String
  | .basicLit value => value
  | .ident name => name
  | _ => "..."

/-- `getTypeKind`: classify a declared type's outer shape. -/
def getTypeKind : Expr → String
  | .structT _ => "struct"
  | .interfaceT => "interface"
  | .arrayT _ => "array"
  | .mapT _ _ => "map"
  | .chanT => "channel"
  | .funcT => "function"
  | _ => "alias"

/-- `cleanDoc` (the Doc Normalizer): trim, normalise CRLF, drop blank lines,
rejoin with single newlines. -/
def cleanDoc (doc : String) : String :=
  if doc == "" then ""
  else
    let doc := goTrimSpace doc
    let doc := replaceCrLf doc
    let lines := splitNl doc
    let cleaned := lines.foldl (fun acc line =>
      let line := goTrimSpace line
      if line != "" then acc ++ [line] else acc) []
    goJoin "\n" cleaned

/-! ### Field/Param/Return extraction -/

/-- One step of the `extractParameters` loop: a named group contributes one
entry per name, an anonymous group one entry with empty name. -/
def paramStep (acc : List ParamInfo) (field : Field) : List ParamInfo :=
  let paramType := typeToString field.typ
  if field.Names.isEmpty then
    acc ++ [{ Name := "", typ := paramType }]
  else
    acc ++ field.Names.map (fun name => { Name := name, typ := paramType })

/-- `extractParameters` over an optional `ast.FieldList`. -/
def extractParameters : Option (List Field) → List ParamInfo
  | none => []
  | some fields => fields.foldl paramStep []

/-- One step of the `extractReturns` loop: one entry per grouped field,
from the field's type only (names are not consulted). -/
def retStep (acc : List ReturnInfo) (field : Field) : List ReturnInfo :=
  acc ++ [{ typ := typeToString field.typ, Description := "" }]

/-- `extractReturns` over an optional `ast.FieldList`. -/
def extractReturns : Option (List Field) → List ReturnInfo
  | none => []
  | some fields => fields.foldl retStep []

/-- One step of the `extractFields` loop over a struct's field list. -/
def fieldStep (acc : List FieldInfo) (field : Field) : List FieldInfo :=
  let fieldType := typeToString field.typ
  let tag := match field.Tag with
    | some t => t
    | none => ""
  if field.Names.isEmpty then
    acc ++ [{ Name := "", typ := fieldType, Tag := tag, Description := "" }]
  else
    acc ++ field.Names.map (fun name =>
      { Name := name, typ := fieldType, Tag := tag, Description := "" })

/-- `extractFields` over a struct type's field list. -/
def extractFields (fields : List Field) : List FieldInfo := fields.foldl fieldStep []

/-! ### Signature reconstruction -/

/-- `fieldListToString`: comma-joined `name type` pairs (bare type for an
anonymous group), empty string for a `nil` field list. -/
def fieldListToString : Option (List Field) → String
  | none => ""
  | some fields =>
    goJoin ", " (fields.foldl (fun acc field =>
      let fieldType := typeToString field.typ
      if field.Names.isEmpty then acc ++ [fieldType]
      else acc ++ field.Names.map (fun name => name ++ " " ++ fieldType)) [])

/-- `getFunctionSignature`: collect the parts exactly as the Go code does,
then join them with single spaces (`strings.Join(parts, " ")`). -/
def getFunctionSignature (decl : FuncDecl) : String :=
  let parts : List String := ["func"]
  let parts := match decl.Recv with
    | some _ => parts ++ ["(" ++ fieldListToString decl.Recv ++ ")"]
    | none => parts
  let parts := parts ++ [decl.Name]
  let parts := match decl.typ.Params with
    | some _ => parts ++ ["(" ++ fieldListToString decl.typ.Params ++ ")"]
    | none => parts ++ ["()"]
  let parts := match decl.typ.Results with
    | none => parts
    | some results =>
      let resStr := fieldListToString (some results)
      match results with
      | [f] => if f.Names.isEmpty then parts ++ [resStr] else parts ++ ["(" ++ resStr ++ ")"]
      | _ => parts ++ ["(" ++ resStr ++ ")"]
  goJoin " " parts

/-! ### Example miner -/

/-- Scanner state of `extractExamples`: the `inExample` flag, the
`strings.Builder` buffer, and the examples emitted so far. -/
structure ScanState where
  inExample : Bool
  buf : String
  examples : List String
deriving DecidableEq, Repr

/-- The trigger test applied to the trimmed line: an `Example:` or `Usage:`
marker, or a ```` ```go ```` fence opener anywhere in the line. -/
def isExampleTrigger (trimmed : String) : Bool :=
  goStartsWith trimmed "Example:" || goStartsWith trimmed "Usage:" ||
    goContains trimmed "```go"

/-- One iteration of the `extractExamples` line loop. -/
def processLine (st : ScanState) (line : String) : ScanState :=
  let trimmed := goTrimSpace line
  if isExampleTrigger trimmed then
    { st with inExample := true, buf := "" }
  else if st.inExample then
    if goContains trimmed "```" || (trimmed == "" && !(st.buf == "")) then
      if !(st.buf == "") then
        { inExample := false, buf := "", examples := st.examples ++ [st.buf] }
      else
        { st with inExample := false }
    else if goStartsWith line "    " || goStartsWith line "\t" then
      { st with buf := st.buf ++ goTrimPfx (goTrimPfx line "    ") "\t" ++ "\n" }
    else st
  else st

/-- `extractExamples`: split the doc text on newlines and run the scanner.
Note the Go code does not flush a non-empty buffer at end of input. -/
def extractExamples (doc : String) : List String :=
  ((splitNl doc).foldl processLine { inExample := false, buf := "", examples := [] }).examples

/-! ### Declaration extraction -/

/-- `analyseFunctionDecl`: name, cleaned doc, export flag and mined examples
always; signature/parameters/returns only when a declaration node with a
type is present. -/
def analyseFunctionDecl (fn : DocFunc) : FunctionInfo :=
  let info : FunctionInfo :=
    { Name := fn.Name, Signature := "", Description := cleanDoc fn.Doc,
      Parameters := [], Returns := [], Examples := extractExamples fn.Doc,
      IsExported := isExported fn.Name, IsMethod := false, Receiver := "" }
  match fn.Decl with
  | some decl =>
    { info with Signature := getFunctionSignature decl,
                Parameters := extractParameters decl.typ.Params,
                Returns := extractReturns decl.typ.Results }
  | none => info

/-- One step of the `analyseTypeDecl` loop over the declaration's specs:
a type spec sets the kind, and additionally the fields when it is a struct. -/
def typeSpecStep (info : TypeInfo) (spec : Spec) : TypeInfo :=
  match spec with
  | Spec.typeSpec ts =>
    let info := { info with Kind := getTypeKind ts.typ }
    match ts.typ with
    | Expr.structT fields => { info with Fields := extractFields fields }
    | _ => info
  | _ => info

/-- `analyseTypeDecl`. -/
def analyseTypeDecl (typ : DocType) : TypeInfo :=
  let info : TypeInfo :=
    { Name := typ.Name, Kind := "", Description := cleanDoc typ.Doc,
      Fields := [], Methods := [], IsExported := isExported typ.Name }
  let info := match typ.Decl with
    | some decl => decl.Specs.foldl typeSpecStep info
    | none => info
  { info with Methods := typ.Methods.map (fun m => m.Name) }

/-- The body of the indexed name loop of `analyseConstantDecl`: entry `i`
takes the stringified value at position `i` when one exists there (Go checks
`i < len(vs.Values) && vs.Values[i] != nil`; `getD i none` folds the bounds
check and the nil check into one lookup). -/
def constLoop (docText typeText : String) (values : List (Option Expr)) :
    Nat → List String → List ConstantInfo
  | _, [] => []
  | i, name :: rest =>
    { Name := name, typ := typeText,
      Value := match values.getD i none with
        | some e => exprToString e
        | none => "",
      Description := docText, IsExported := isExported name }
      :: constLoop docText typeText values (i + 1) rest

/-- `analyseConstantDecl`: expand every value spec of the group. -/
def analyseConstantDecl (c : DocValue) : List ConstantInfo :=
  c.Decl.Specs.foldl (fun acc spec =>
    match spec with
    | Spec.valueSpec vs =>
      acc ++ constLoop (cleanDoc c.Doc)
        (match vs.typ with
          | some t => typeToString t
          | none => "") vs.Values 0 vs.Names
    | _ => acc) []

/-- `analyseVariableDecl`: like constants but without values. -/
def analyseVariableDecl (v : DocValue) : List VariableInfo :=
  v.Decl.Specs.foldl (fun acc spec =>
    match spec with
    | Spec.valueSpec vs =>
      acc ++ vs.Names.map (fun name =>
        { Name := name,
          typ := match vs.typ with
            | some t => typeToString t
            | none => "",
          Description := cleanDoc v.Doc, IsExported := isExported name })
    | _ => acc) []

/-- `extractImports`: strip the quote characters from each file's import
path literals and de-duplicate.  The Go code accumulates a `map[string]bool`
and emits it in map iteration order, which is unspecified; the embedding
uses first-insertion order as one admissible order. -/
def extractImports (files : List (List String)) : List String :=
  files.foldl (fun acc fileImports =>
    fileImports.foldl (fun acc imp =>
      let path := goTrimChar imp '"'
      if acc.contains path then acc else acc ++ [path]) acc) []

/-! ### Package analysis -/

/-- The selection predicate of `AnalysePackage`: keep a candidate whose
package name does not end in `_test`. -/
def nonTestEntry (p : String × DocPackage) : Bool := !goHasSuffix p.fst "_test"

/-- A method's `FunctionInfo` entry: the plain function analysis with the
method flag set and the receiver set to the enclosing type's name. -/
def methodEntry (recvName : String) (m : DocFunc) : FunctionInfo :=
  { analyseFunctionDecl m with IsMethod := true, Receiver := recvName }

/-- One step of the type loop of `AnalysePackage`: append the `TypeInfo`,
then append one `FunctionInfo` per method of the type. -/
def typeStep (info : PackageInfo) (typ : DocType) : PackageInfo :=
  let info := { info with Types := info.Types ++ [analyseTypeDecl typ] }
  { info with Functions := info.Functions ++ typ.Methods.map (methodEntry typ.Name) }

/-- Model assembly of `AnalysePackage` once a candidate package is selected:
functions, then types with their methods, then constants, then variables. -/
def buildPackageInfo (dir name : String) (dp : DocPackage) : PackageInfo :=
  let info : PackageInfo :=
    { Name := name, Path := dir, Description := cleanDoc dp.Doc,
      Functions := [], Types := [], Constants := [], Variables := [],
      Examples := [], Imports := extractImports dp.FileImports }
  let info := { info with Functions := dp.Funcs.map analyseFunctionDecl }
  let info := dp.Types.foldl typeStep info
  let info := { info with
    Constants := dp.Consts.foldl (fun acc c => acc ++ analyseConstantDecl c) [] }
  { info with
    Variables := dp.Vars.foldl (fun acc v => acc ++ analyseVariableDecl v) [] }

/-- `AnalysePackage` after a successful `parser.ParseDir`: `pkgs` lists the
entries of the returned map in one possible Go map iteration order.  The
selection loop takes the first entry (in that order) whose name does not
end in `_test`; with none, analysis fails with the no-package error. -/
def analysePackage (dir : String) (pkgs : List (String × DocPackage)) :
    Except String PackageInfo :=
  match pkgs.find? nonTestEntry with
  | none => Except.error ("no Golang package found in " ++ dir)
  | some (name, dp) => Except.ok (buildPackageInfo dir name dp)

/-! ### Enhancement stage (`internal/generator`)

Each LLM call is modelled by an oracle component: `none` is a call that
returned an error, `some s` a successful call returning `s`.  The Go code
only applies a result when the call succeeded and the result is non-empty. -/

structure EnhanceOracle where
  packageDesc : Option String
  functionDesc : Nat → Option String
  typeDesc : Nat → Option String
  packageExample : Option String
  functionExample : Nat → Option String

/-- Go's `for i := range xs` loop with in-place update at each index. -/
def mapWithIndex {α : Type} (f : Nat → α → α) : Nat → List α → List α
  | _, [] => []
  | i, x :: xs => f i x :: mapWithIndex f (i + 1) xs

/-- The package-description branch of `enhanceDescriptions`. -/
def enhancePkgDescStep (o : EnhanceOracle) (pkg : PackageInfo) : PackageInfo :=
  if goLen pkg.Description < 50 then
    match o.packageDesc with
    | some enhanced => if enhanced ≠ "" then { pkg with Description := enhanced } else pkg
    | none => pkg
  else pkg

/-- The per-function body of the description loop of `enhanceDescriptions`. -/
def enhanceFnStep (o : EnhanceOracle) (i : Nat) (fn : FunctionInfo) : FunctionInfo :=
  if goLen fn.Description < 20 then
    match o.functionDesc i with
    | some enhanced => if enhanced ≠ "" then { fn with Description := enhanced } else fn
    | none => fn
  else fn

/-- The per-type body of the description loop of `enhanceDescriptions`. -/
def enhanceTypeStep (o : EnhanceOracle) (i : Nat) (t : TypeInfo) : TypeInfo :=
  if goLen t.Description < 20 then
    match o.typeDesc i with
    | some enhanced => if enhanced ≠ "" then { t with Description := enhanced } else t
    | none => t
  else t

/-- `enhanceDescriptions`: package description, then every function, then
every type, each behind its length threshold. -/
def enhanceDescriptions (o : EnhanceOracle) (pkg : PackageInfo) : PackageInfo :=
  let pkg := enhancePkgDescStep o pkg
  let pkg := { pkg with Functions := mapWithIndex (enhanceFnStep o) 0 pkg.Functions }
  { pkg with Types := mapWithIndex (enhanceTypeStep o) 0 pkg.Types }

/-- The package-example branch of `generateExamples`. -/
def genPkgExampleStep (o : EnhanceOracle) (pkg : PackageInfo) : PackageInfo :=
  if pkg.Examples.isEmpty then
    match o.packageExample with
    | some ex =>
      if ex ≠ "" then
        { pkg with Examples := pkg.Examples ++
            [{ Name := "Basic Usage", Code := ex, Doc := "Basic usage example" }] }
      else pkg
    | none => pkg
  else pkg

/-- The per-function body of the example loop of `generateExamples`. -/
def genFnExampleStep (o : EnhanceOracle) (i : Nat) (fn : FunctionInfo) : FunctionInfo :=
  if fn.Examples.isEmpty && fn.IsExported then
    match o.functionExample i with
    | some ex => if ex ≠ "" then { fn with Examples := fn.Examples ++ [ex] } else fn
    | none => fn
  else fn

/-- `generateExamples`: one package-level example when the list is empty,
then one example per exported function whose list is empty. -/
def generateExamples (o : EnhanceOracle) (pkg : PackageInfo) : PackageInfo :=
  let pkg := genPkgExampleStep o pkg
  { pkg with Functions := mapWithIndex (genFnExampleStep o) 0 pkg.Functions }

/-! ### General loop lemmas -/

theorem foldl_retStep (fields : List Field) :
    ∀ acc : List ReturnInfo,
      fields.foldl retStep acc =
        acc ++ fields.map (fun f => { typ := typeToString f.typ, Description := "" }) := by
  induction fields with
  | nil => intro acc; simp
  | cons f rest ih =>
    intro acc
    simp only [List.foldl_cons, List.map_cons, ih, retStep]
    rw [List.append_assoc]
    rfl

/-- The per-field parameter group: one entry per name, or one anonymous entry. -/
def paramGroup (f : Field) : List ParamInfo :=
  if f.Names.isEmpty then [{ Name := "", typ := typeToString f.typ }]
  else f.Names.map (fun name => { Name := name, typ := typeToString f.typ })

theorem paramStep_eq (acc : List ParamInfo) (f : Field) :
    paramStep acc f = acc ++ paramGroup f := by
  cases h : f.Names.isEmpty <;> simp [paramStep, paramGroup, h]

theorem foldl_paramStep (fields : List Field) :
    ∀ acc : List ParamInfo,
      fields.foldl paramStep acc = acc ++ fields.flatMap paramGroup := by
  induction fields with
  | nil => intro acc; simp
  | cons f rest ih =>
    intro acc
    simp only [List.foldl_cons, List.flatMap_cons, paramStep_eq, ih, List.append_assoc]

theorem mapWithIndex_get? {α : Type} (f : Nat → α → α) :
    ∀ (l : List α) (k j : Nat),
      (mapWithIndex f k l).get? j = (l.get? j).map (f (k + j)) := by
  intro l
  induction l with
  | nil => intro k j; simp [mapWithIndex]
  | cons x xs ih =>
    intro k j
    cases j with
    | zero => simp [mapWithIndex]
    | succ j' =>
      have := ih (k + 1) j'
      simpa [mapWithIndex, Nat.add_assoc, Nat.add_comm 1 j'] using this

theorem findEqHeadFilter {α : Type} (p : α → Bool) :
    ∀ l : List α, l.find? p = (l.filter p).head? := by
  intro l
  induction l with
  | nil => rfl
  | cons a rest ih =>
    cases h : p a
    · rw [List.find?_cons_of_neg _ (by simp [h]), List.filter_cons_of_neg (by simp [h]), ih]
    · rw [List.find?_cons_of_pos _ h, List.filter_cons_of_pos h, List.head?_cons]

/-! ### C1 — signature form -/

/-- The signature shape the code actually produces, stated clause by clause:
the keyword, then for a method a space and the parenthesized receiver, then
a space and the name, then a space and the parenthesized parameter list,
then — only when a results node exists — a space and the return clause
(bare type for exactly one unnamed return value, else parenthesized). -/
def isSingleUnnamed : List Field → Bool
  | [f] => f.Names.isEmpty
  | _ => false

/-- Spec-side restatement of the amended C1 claim: all clauses are joined by
single spaces, so the name is followed by a space before `(<params>)`. -/
def signatureSpec (decl : FuncDecl) : String :=
  let recvClause := match decl.Recv with
    | some _ => " " ++ "(" ++ fieldListToString decl.Recv ++ ")"
    | none => ""
  let paramsClause := match decl.typ.Params with
    | some _ => " " ++ "(" ++ fieldListToString decl.typ.Params ++ ")"
    | none => " " ++ "()"
  let returnsClause := match decl.typ.Results with
    | none => ""
    | some results =>
      if isSingleUnnamed results then " " ++ fieldListToString (some results)
      else " " ++ "(" ++ fieldListToString (some results) ++ ")"
  "func" ++ recvClause ++ " " ++ decl.Name ++ paramsClause ++ returnsClause

def declFooC1 : FuncDecl :=
  { Recv := none, Name := "Foo",
    typ := { Params := some [Field.mk ["x"] (Expr.ident "int") none],
             Results := some [Field.mk [] (Expr.ident "int") none] } }

/-- C1 counterexample: for `func Foo(x int) int` the reconstructed signature
is `func Foo (x int) int` — the name is NOT immediately followed by the
parenthesized parameter list, because the Go code joins all parts with
single spaces (`strings.Join(parts, " ")`). -/
theorem signature_adjacency_counterexample :
    getFunctionSignature declFooC1 = "func Foo (x int) int" ∧
    "func Foo (x int) int" ≠ "func Foo(x int) int" := by
  exact ⟨rfl, by decide⟩

/-- C1 (amended): for every declaration the signature is the space-join of
the clauses `<keyword> [(<receiver>)] <name> (<params>) [<returns>]` — the
receiver clause parenthesized and present only for methods, the parameter
list always parenthesized (also when the params node is nil), the return
clause present only when a results node exists, rendered as the bare type
text when exactly one unnamed return value is declared and as a
parenthesized comma-joined list otherwise; every two adjacent clauses,
including the name and the parameter list, are separated by one space. -/
theorem signature_space_join (decl : FuncDecl) :
    getFunctionSignature decl = signatureSpec decl := by
  obtain ⟨recv, name, params, results⟩ := decl
  cases recv <;> cases params <;>
    rcases results with _ | ⟨_ | ⟨f, _ | ⟨g, rest⟩⟩⟩ <;>
    first
    | (cases hf : f.Names.isEmpty <;>
        simp only [getFunctionSignature, signatureSpec, isSingleUnnamed, goJoin, hf,
          Bool.false_eq_true, Bool.true_eq_false, if_true, if_false, ite_true, ite_false,
          reduceIte] <;>
        simp only [strAppendAssoc, strAppendNil, strNilAppend])
    | (simp only [getFunctionSignature, signatureSpec, isSingleUnnamed, goJoin,
          Bool.false_eq_true, Bool.true_eq_false, if_true, if_false, ite_true, ite_false,
          reduceIte];
        simp only [strAppendAssoc, strAppendNil, strNilAppend])

/-! ### C2 — return expansion -/

def retFieldC2 : Field := Field.mk ["a", "b"] (Expr.ident "int") none

/-- C2 counterexample: a return group binding the two names `a, b` to one
type `int` yields ONE `ReturnInfo` entry, not two — `extractReturns` never
consults the field's names, against the claimed per-name expansion. -/
theorem returns_expansion_counterexample :
    extractReturns (some [retFieldC2]) = [{ typ := "int", Description := "" }] ∧
    (extractReturns (some [retFieldC2])).length ≠ 2 := by
  exact ⟨rfl, by decide⟩

/-- C2 (amended): returns are NOT expanded per name.  `extractReturns`
yields exactly one `ReturnInfo` per grouped field, carrying the group's
type, so the number of entries equals the number of grouped fields (for
anonymous groups this is one entry per type); `extractParameters`, by
contrast, does expand per name: a named group contributes one entry per
name and an anonymous group a single entry. -/
theorem returns_one_entry_per_group (fields : List Field) :
    extractReturns (some fields) =
      fields.map (fun f => { typ := typeToString f.typ, Description := "" }) ∧
    (extractReturns (some fields)).length = fields.length ∧
    (extractParameters (some fields)).length =
      (fields.map (fun f => if f.Names.isEmpty then 1 else f.Names.length)).sum := by
  refine ⟨?_, ?_, ?_⟩
  · simpa using foldl_retStep fields []
  · have h := foldl_retStep fields []
    simp only [extractReturns]
    rw [h]
    simp
  · show (fields.foldl paramStep []).length = _
    rw [foldl_paramStep fields []]
    simp only [List.nil_append, List.length_flatMap]
    congr 1
    apply List.map_congr_left
    intro f _
    simp only [Function.comp_apply, paramGroup]
    cases h : f.Names.isEmpty <;> simp [h]

/-! ### C3 — positional constant values -/

theorem constLoop_get? (docText typeText : String) (values : List (Option Expr)) :
    ∀ (names : List String) (k j : Nat), j < names.length →
      (constLoop docText typeText values k names).get? j =
        some { Name := names.getD j "", typ := typeText,
               Value := match values.getD (k + j) none with
                 | some e => exprToString e
                 | none => "",
               Description := docText, IsExported := isExported (names.getD j "") } := by
  intro names
  induction names with
  | nil => intro k j h; simp at h
  | cons n rest ih =>
    intro k j h
    cases j with
    | zero => simp [constLoop]
    | succ j' =>
      have h' : j' < rest.length := by simpa using h
      have := ih (k + 1) j' h'
      simpa [constLoop, Nat.add_assoc, Nat.add_comm 1 j'] using this

/-- C3: in a constant group, the entry for the name at position `i` takes
the stringified value expression at position `i` when one exists there, and
the absent (empty) value otherwise — never a value repeated or inferred
from an earlier position. -/
theorem constant_values_positional (c : DocValue) (vs : ValueSpec)
    (hspec : c.Decl.Specs = [Spec.valueSpec vs])
    (j : Nat) (hj : j < vs.Names.length) :
    ((analyseConstantDecl c).get? j).map (fun ci => ci.Value) =
      some (match vs.Values.getD j none with
        | some e => exprToString e
        | none => "") := by
  unfold analyseConstantDecl
  rw [hspec]
  simp only [List.foldl_cons, List.foldl_nil, List.nil_append]
  rw [constLoop_get? _ _ _ vs.Names 0 j hj]
  simp

def constGroupAB12 : DocValue :=
  ⟨"", ⟨[Spec.valueSpec ⟨["A", "B"], none,
    [some (Expr.basicLit "1"), some (Expr.basicLit "2")]⟩]⟩⟩

def constGroupAB1 : DocValue :=
  ⟨"", ⟨[Spec.valueSpec ⟨["A", "B"], none, [some (Expr.basicLit "1")]⟩]⟩⟩

/-- C3 witness: `names=[A,B], values=[1,2]` gives `B.value="2"`, and
`names=[A,B], values=[1]` gives `B.value` absent (the empty string). -/
theorem constant_values_positional_witness :
    (((analyseConstantDecl constGroupAB12).get? 1).map (fun ci => ci.Value) = some "2") ∧
    (((analyseConstantDecl constGroupAB1).get? 1).map (fun ci => ci.Value) = some "") := by
  constructor
  · exact constant_values_positional constGroupAB12 _ rfl 1 (by decide)
  · exact constant_values_positional constGroupAB1 _ rfl 1 (by decide)

/-! ### C4 — example scanner line handling -/

/-- The indentation strip the scanner actually performs on an appended
line: drop a leading four-space layer when present, then drop one leading
tab from the remainder when present — so a line carrying four spaces
followed by a tab loses both. -/
def stripIndentLayer (line : String) : String :=
  let rest := if goStartsWith line "    " then (⟨line.data.drop "    ".length⟩ : String)
    else line
  if goStartsWith rest "\t" then (⟨rest.data.drop "\t".length⟩ : String) else rest

theorem goTrimPfx_strip (line : String) :
    goTrimPfx (goTrimPfx line "    ") "\t" = stripIndentLayer line := by
  simp only [goTrimPfx, stripIndentLayer, goStartsWith, String.length]

/-- C4 counterexample, refuting the claim on three concrete scanner steps:
(1) the line `"    \tfoo"` carries a leading four-space layer, yet is
appended with BOTH that layer and the following tab stripped (`"foo\n"`,
not `"\tfoo\n"` — more than one layer removed);
(2) the unindented line containing a fence marker is not ignored: it ends
the `InExample` state (emitting the buffer);
(3) the indented line `"    Usage: y"` is not appended at all — the
trigger test runs first and clears the buffer instead. -/
theorem example_scanner_counterexample :
    (processLine ⟨true, "", []⟩ "    \tfoo" = ⟨true, "foo\n", []⟩ ∧
      ("foo\n" : String) ≠ "\tfoo" ++ "\n") ∧
    processLine ⟨true, "x\n", []⟩ "```" = ⟨false, "", ["x\n"]⟩ ∧
    processLine ⟨true, "x\n", []⟩ "    Usage: y" = ⟨true, "", []⟩ := by
  exact ⟨⟨rfl, by decide⟩, rfl, rfl⟩

/-- C4 (amended): while the scanner is in the `InExample` state, on a line
that neither re-triggers an example start (an `Example:`/`Usage:` marker or
a ```` ```go ```` fence in the trimmed line) nor terminates the block (a
fence marker, or a blank trimmed line while the buffer is non-empty):
if the line starts with four spaces or a tab it is appended to the buffer,
with a leading four-space layer stripped when present and then one leading
tab stripped from the remainder when present, followed by a newline, and
the state stays `InExample`; otherwise the line is ignored and the whole
state is unchanged. -/
theorem example_scanner_inexample_amended (st : ScanState) (line : String)
    (hin : st.inExample = true)
    (htr : isExampleTrigger (goTrimSpace line) = false)
    (hterm : (goContains (goTrimSpace line) "```" ||
      (goTrimSpace line == "" && !(st.buf == ""))) = false) :
    ((goStartsWith line "    " || goStartsWith line "\t") = true →
      processLine st line = { st with buf := st.buf ++ stripIndentLayer line ++ "\n" }) ∧
    ((goStartsWith line "    " || goStartsWith line "\t") = false →
      processLine st line = st) := by
  constructor <;> intro hind <;>
    simp only [processLine, htr, hin, hterm, hind, goTrimPfx_strip,
      Bool.false_eq_true, if_true, if_false, ite_true, ite_false, reduceIte]

/-- C4 witness: a concrete in-state step appending an indented line. -/
theorem example_scanner_inexample_amended_witness :
    processLine ⟨true, "b\n", []⟩ "    code" =
      { inExample := true, buf := "b\n" ++ stripIndentLayer "    code" ++ "\n",
        examples := [] } :=
  (example_scanner_inexample_amended ⟨true, "b\n", []⟩ "    code" rfl rfl rfl).1 rfl

/-! ### C5 — enhancement threshold contract -/

theorem enhancePkgDescStep_Functions (o : EnhanceOracle) (pkg : PackageInfo) :
    (enhancePkgDescStep o pkg).Functions = pkg.Functions := by
  unfold enhancePkgDescStep
  repeat' split
  all_goals rfl

theorem enhancePkgDescStep_Types (o : EnhanceOracle) (pkg : PackageInfo) :
    (enhancePkgDescStep o pkg).Types = pkg.Types := by
  unfold enhancePkgDescStep
  repeat' split
  all_goals rfl

theorem genPkgExampleStep_Functions (o : EnhanceOracle) (pkg : PackageInfo) :
    (genPkgExampleStep o pkg).Functions = pkg.Functions := by
  unfold genPkgExampleStep
  repeat' split
  all_goals rfl

/-- C5: the enhancement stage overwrites a description only below the
length thresholds — 50 (Go `len`, bytes) at package level, 20 at function
and at type level — and appends examples only to an empty list: a package
description of length at least 50 is unchanged, a function or type entry
whose description has length at least 20 is wholly unchanged, a non-empty
package examples list is unchanged, and a function entry with a non-empty
examples list is wholly unchanged. -/
theorem enhancement_thresholds (o : EnhanceOracle) (pkg : PackageInfo) :
    (50 ≤ goLen pkg.Description →
      (enhanceDescriptions o pkg).Description = pkg.Description) ∧
    (∀ i fn, pkg.Functions.get? i = some fn → 20 ≤ goLen fn.Description →
      (enhanceDescriptions o pkg).Functions.get? i = some fn) ∧
    (∀ i t, pkg.Types.get? i = some t → 20 ≤ goLen t.Description →
      (enhanceDescriptions o pkg).Types.get? i = some t) ∧
    (pkg.Examples ≠ [] → (generateExamples o pkg).Examples = pkg.Examples) ∧
    (∀ i fn, pkg.Functions.get? i = some fn → fn.Examples ≠ [] →
      (generateExamples o pkg).Functions.get? i = some fn) := by
  refine ⟨?_, ?_, ?_, ?_, ?_⟩
  · intro h50
    have hstep : enhancePkgDescStep o pkg = pkg := by
      unfold enhancePkgDescStep
      rw [if_neg (by omega)]
    show (enhancePkgDescStep o pkg).Description = pkg.Description
    rw [hstep]
  · intro i fn hget h20
    show (mapWithIndex (enhanceFnStep o) 0 (enhancePkgDescStep o pkg).Functions).get? i
      = some fn
    rw [enhancePkgDescStep_Functions, mapWithIndex_get?, hget]
    show some (enhanceFnStep o (0 + i) fn) = some fn
    rw [Nat.zero_add]
    unfold enhanceFnStep
    rw [if_neg (by omega)]
  · intro i t ht h20
    show (mapWithIndex (enhanceTypeStep o) 0 (enhancePkgDescStep o pkg).Types).get? i
      = some t
    rw [enhancePkgDescStep_Types, mapWithIndex_get?, ht]
    show some (enhanceTypeStep o (0 + i) t) = some t
    rw [Nat.zero_add]
    unfold enhanceTypeStep
    rw [if_neg (by omega)]
  · intro hne
    have hstep : genPkgExampleStep o pkg = pkg := by
      unfold genPkgExampleStep
      rw [if_neg (by simp [hne])]
    show (genPkgExampleStep o pkg).Examples = pkg.Examples
    rw [hstep]
  · intro i fn hget hne
    show (mapWithIndex (genFnExampleStep o) 0 (genPkgExampleStep o pkg).Functions).get? i
      = some fn
    rw [genPkgExampleStep_Functions, mapWithIndex_get?, hget]
    show some (genFnExampleStep o (0 + i) fn) = some fn
    rw [Nat.zero_add]
    unfold genFnExampleStep
    rw [if_neg (by simp [hne])]

def oracleC5 : EnhanceOracle :=
  { packageDesc := some "NEWDESC", functionDesc := fun _ => some "NEWDESC",
    typeDesc := fun _ => some "NEWDESC", packageExample := some "NEWEX",
    functionExample := fun _ => some "NEWEX" }

def fnC5 : FunctionInfo :=
  { Name := "F", Signature := "", Description := "####################",
    Parameters := [], Returns := [], Examples := ["ex"],
    IsExported := true, IsMethod := false, Receiver := "" }

def tyC5 : TypeInfo :=
  { Name := "T", Kind := "struct", Description := "####################",
    Fields := [], Methods := [], IsExported := true }

def pkgC5 : PackageInfo :=
  { Name := "p", Path := "d",
    Description := "##################################################",
    Functions := [fnC5], Types := [tyC5], Constants := [], Variables := [],
    Examples := [{ Name := "E", Code := "c", Doc := "doc" }], Imports := [] }

/-- C5 witness: a model at all three thresholds, with non-empty example
lists, passes through both enhancement passes unchanged. -/
theorem enhancement_thresholds_witness :
    (enhanceDescriptions oracleC5 pkgC5).Description = pkgC5.Description ∧
    (enhanceDescriptions oracleC5 pkgC5).Functions.get? 0 = some fnC5 ∧
    (enhanceDescriptions oracleC5 pkgC5).Types.get? 0 = some tyC5 ∧
    (generateExamples oracleC5 pkgC5).Examples = pkgC5.Examples ∧
    (generateExamples oracleC5 pkgC5).Functions.get? 0 = some fnC5 := by
  obtain ⟨h1, h2, h3, h4, h5⟩ := enhancement_thresholds oracleC5 pkgC5
  exact ⟨h1 (by decide), h2 0 fnC5 rfl (by decide), h3 0 tyC5 rfl (by decide),
    h4 (by decide), h5 0 fnC5 rfl (by decide)⟩

/-! ### Structural lemmas about `analysePackage` -/

theorem analyseFunctionDecl_Name (fn : DocFunc) :
    (analyseFunctionDecl fn).Name = fn.Name := by
  unfold analyseFunctionDecl
  cases fn.Decl <;> rfl

theorem analyseTypeDecl_Methods (typ : DocType) :
    (analyseTypeDecl typ).Methods = typ.Methods.map (fun m => m.Name) := rfl

theorem typeSpecStep_Name (info : TypeInfo) (spec : Spec) :
    (typeSpecStep info spec).Name = info.Name := by
  rcases spec with vs | ⟨tname, ttyp⟩ | _
  · rfl
  · cases ttyp <;> rfl
  · rfl

theorem typeSpecFold_Name (specs : List Spec) :
    ∀ info : TypeInfo, (specs.foldl typeSpecStep info).Name = info.Name := by
  induction specs with
  | nil => intro info; rfl
  | cons s rest ih =>
    intro info
    rw [List.foldl_cons, ih, typeSpecStep_Name]

theorem analyseTypeDecl_Name (typ : DocType) :
    (analyseTypeDecl typ).Name = typ.Name := by
  unfold analyseTypeDecl
  cases typ.Decl with
  | none => rfl
  | some decl => exact typeSpecFold_Name decl.Specs _

theorem typesFold_Examples (ts : List DocType) :
    ∀ info : PackageInfo, (ts.foldl typeStep info).Examples = info.Examples := by
  induction ts with
  | nil => intro info; rfl
  | cons t rest ih => intro info; rw [List.foldl_cons, ih]; rfl

theorem typesFold_Types (ts : List DocType) :
    ∀ info : PackageInfo,
      (ts.foldl typeStep info).Types = info.Types ++ ts.map analyseTypeDecl := by
  induction ts with
  | nil => intro info; simp
  | cons t rest ih =>
    intro info
    rw [List.foldl_cons, ih]
    show (typeStep info t).Types ++ _ = _
    simp [typeStep, List.append_assoc]

theorem typesFold_Functions (ts : List DocType) :
    ∀ info : PackageInfo,
      (ts.foldl typeStep info).Functions =
        info.Functions ++
          ts.flatMap (fun typ => typ.Methods.map (methodEntry typ.Name)) := by
  induction ts with
  | nil => intro info; simp
  | cons t rest ih =>
    intro info
    rw [List.foldl_cons, ih]
    show (typeStep info t).Functions ++ _ = _
    simp [typeStep, List.append_assoc]

theorem buildPackageInfo_Types (dir name : String) (dp : DocPackage) :
    (buildPackageInfo dir name dp).Types = dp.Types.map analyseTypeDecl := by
  show (dp.Types.foldl typeStep _).Types = _
  rw [typesFold_Types]
  rfl

theorem buildPackageInfo_Functions (dir name : String) (dp : DocPackage) :
    (buildPackageInfo dir name dp).Functions =
      dp.Funcs.map analyseFunctionDecl ++
        dp.Types.flatMap (fun typ => typ.Methods.map (methodEntry typ.Name)) := by
  show (dp.Types.foldl typeStep _).Functions = _
  rw [typesFold_Functions]

theorem buildPackageInfo_Examples (dir name : String) (dp : DocPackage) :
    (buildPackageInfo dir name dp).Examples = [] := by
  show (dp.Types.foldl typeStep _).Examples = _
  rw [typesFold_Examples]

theorem analysePackage_ok {dir : String} {pkgs : List (String × DocPackage)}
    {info : PackageInfo} (hok : analysePackage dir pkgs = Except.ok info) :
    ∃ name dp, pkgs.find? nonTestEntry = some (name, dp) ∧
      info = buildPackageInfo dir name dp := by
  unfold analysePackage at hok
  cases h : pkgs.find? nonTestEntry with
  | none => rw [h] at hok; exact absurd hok (by simp)
  | some p =>
    obtain ⟨name, dp⟩ := p
    rw [h] at hok
    exact ⟨name, dp, rfl, (Except.ok.injEq _ _ ▸ hok).symm⟩

/-! ### C6 — method entries -/

/-- C6: in every `PackageInfo` returned by `analysePackage`, every method
name `m` listed in a `TypeInfo`'s `Methods` has a corresponding entry in
`Functions` with name `m`, the method flag set, and the receiver equal to
that type's name. -/
theorem methods_have_function_entries (dir : String)
    (pkgs : List (String × DocPackage)) (info : PackageInfo)
    (hok : analysePackage dir pkgs = Except.ok info)
    (T : TypeInfo) (hT : T ∈ info.Types) (m : String) (hm : m ∈ T.Methods) :
    ∃ f ∈ info.Functions, f.Name = m ∧ f.IsMethod = true ∧ f.Receiver = T.Name := by
  obtain ⟨name, dp, hfind, rfl⟩ := analysePackage_ok hok
  rw [buildPackageInfo_Types] at hT
  obtain ⟨typ, htyp, rfl⟩ := List.mem_map.mp hT
  rw [analyseTypeDecl_Methods] at hm
  obtain ⟨mth, hmth, rfl⟩ := List.mem_map.mp hm
  refine ⟨methodEntry typ.Name mth, ?_, ?_, rfl, ?_⟩
  · rw [buildPackageInfo_Functions]
    exact List.mem_append_right _
      (List.mem_flatMap.mpr ⟨typ, htyp, List.mem_map.mpr ⟨mth, hmth, rfl⟩⟩)
  · show (analyseFunctionDecl mth).Name = mth.Name
    exact analyseFunctionDecl_Name mth
  · show typ.Name = (analyseTypeDecl typ).Name
    exact (analyseTypeDecl_Name typ).symm

def emptyPackageInfo : PackageInfo :=
  { Name := "", Path := "", Description := "", Functions := [], Types := [],
    Constants := [], Variables := [], Examples := [], Imports := [] }

def dtC6 : DocType :=
  { Name := "T", Doc := "", Decl := none,
    Methods := [{ Name := "M", Doc := "", Decl := none }] }

def pkgsC6 : List (String × DocPackage) :=
  [("p", { Doc := "", Funcs := [], Types := [dtC6], Consts := [], Vars := [],
           FileImports := [] })]

def infoC6 : PackageInfo :=
  match analysePackage "dirC6" pkgsC6 with
  | Except.ok info => info
  | Except.error _ => emptyPackageInfo

/-- C6 witness: a package with one type `T` with one method `M`. -/
theorem methods_have_function_entries_witness :
    ∃ f ∈ infoC6.Functions, f.Name = "M" ∧ f.IsMethod = true ∧ f.Receiver = "T" := by
  have h := methods_have_function_entries "dirC6" pkgsC6 infoC6 rfl
    (analyseTypeDecl dtC6)
    (show analyseTypeDecl dtC6 ∈ [analyseTypeDecl dtC6] from List.mem_singleton_self _)
    "M" (show "M" ∈ ["M"] from List.mem_singleton_self _)
  simpa [analyseTypeDecl_Name, dtC6] using h

/-! ### C7 — package selection and map iteration order -/

def emptyDocPackage : DocPackage :=
  { Doc := "", Funcs := [], Types := [], Consts := [], Vars := [], FileImports := [] }

/-- C7 counterexample: the same parsed map, presented in the two iteration
orders Go may use for it, selects different packages and produces different
models — both `alpha` and `beta` are non-test candidates, and the code takes
whichever the randomised map iteration yields first. -/
theorem package_selection_counterexample :
    ([("alpha", emptyDocPackage), ("beta", emptyDocPackage)] :
        List (String × DocPackage)).Perm
      [("beta", emptyDocPackage), ("alpha", emptyDocPackage)] ∧
    (analysePackage "d" [("alpha", emptyDocPackage), ("beta", emptyDocPackage)]).toOption.map
      (fun i => i.Name) = some "alpha" ∧
    (analysePackage "d" [("beta", emptyDocPackage), ("alpha", emptyDocPackage)]).toOption.map
      (fun i => i.Name) = some "beta" ∧
    ("alpha" : String) ≠ "beta" := by
  exact ⟨List.Perm.swap _ _ _, rfl, rfl, by decide⟩

/-- C7 (amended): the selection takes the first non-test-suffixed entry in
the order the parsed map happens to be iterated, which Go leaves
unspecified; the analysis result is therefore independent of the iteration
order — i.e. two invocations on the same parsed input agree — when at most
one candidate package is non-test-suffixed. -/
theorem package_selection_unique_amended (dir : String)
    (pkgs1 pkgs2 : List (String × DocPackage)) (hperm : pkgs1.Perm pkgs2)
    (huniq : (pkgs1.filter nonTestEntry).length ≤ 1) :
    analysePackage dir pkgs1 = analysePackage dir pkgs2 := by
  have hfil : (pkgs1.filter nonTestEntry).Perm (pkgs2.filter nonTestEntry) :=
    hperm.filter _
  have heq : pkgs1.filter nonTestEntry = pkgs2.filter nonTestEntry := by
    cases h1 : pkgs1.filter nonTestEntry with
    | nil =>
      rw [h1] at hfil
      exact (List.perm_nil.mp hfil.symm).symm
    | cons a rest =>
      rw [h1] at hfil huniq
      cases rest with
      | nil => exact (List.perm_singleton.mp hfil.symm).symm
      | cons b rest' => simp at huniq
  unfold analysePackage
  rw [findEqHeadFilter, findEqHeadFilter, heq]

/-- C7 witness: with a single non-test candidate, both iteration orders of
the map yield the same analysis result. -/
theorem package_selection_unique_amended_witness :
    analysePackage "d" [("a_test", emptyDocPackage), ("b", emptyDocPackage)] =
      analysePackage "d" [("b", emptyDocPackage), ("a_test", emptyDocPackage)] :=
  package_selection_unique_amended "d" _ _ (List.Perm.swap _ _ _) (by decide)

/-! ### C8 — test-only or empty directories -/

/-- C8: whenever every candidate package is test-suffixed (in particular
when there are none at all), `analysePackage` returns the no-package error
and no model — the `Except.error` carries no `PackageInfo` at all. -/
theorem test_only_packages_give_error (dir : String)
    (pkgs : List (String × DocPackage))
    (h : ∀ p ∈ pkgs, goHasSuffix p.fst "_test" = true) :
    analysePackage dir pkgs = Except.error ("no Golang package found in " ++ dir) := by
  unfold analysePackage
  have hnone : pkgs.find? nonTestEntry = none := by
    rw [List.find?_eq_none]
    intro p hp
    simp [nonTestEntry, h p hp]
  rw [hnone]

/-- C8 witness: a directory whose only candidate is `foo_test`. -/
theorem test_only_packages_give_error_witness :
    analysePackage "dir8" [("foo_test", emptyDocPackage)] =
      Except.error "no Golang package found in dir8" :=
  test_only_packages_give_error "dir8" [("foo_test", emptyDocPackage)] (by decide)

/-! ### C9 — package-level examples are never mined -/

/-- C9: every `PackageInfo` returned successfully by `analysePackage` has an
empty package-level `Examples` list: the example miner runs only on
function/method doc text, never on the package doc comment. -/
theorem package_examples_empty (dir : String) (pkgs : List (String × DocPackage))
    (info : PackageInfo) (hok : analysePackage dir pkgs = Except.ok info) :
    info.Examples = [] := by
  obtain ⟨name, dp, hfind, rfl⟩ := analysePackage_ok hok
  exact buildPackageInfo_Examples dir name dp

def pkgsC9 : List (String × DocPackage) :=
  [("p", { Doc := "Package docs.\n\nExample:\n    use()\n", Funcs := [], Types := [],
           Consts := [], Vars := [], FileImports := [] })]

def infoC9 : PackageInfo :=
  match analysePackage "dir9" pkgsC9 with
  | Except.ok info => info
  | Except.error _ => emptyPackageInfo

/-- C9 witness: even a package doc comment containing an `Example:` block
yields no package-level examples. -/
theorem package_examples_empty_witness : infoC9.Examples = [] :=
  package_examples_empty "dir9" pkgsC9 infoC9 rfl

/-! ### C10 — return descriptions are never populated -/

theorem extractReturns_description (ol : Option (List Field)) (r : ReturnInfo)
    (hr : r ∈ extractReturns ol) : r.Description = "" := by
  cases ol with
  | none => cases hr
  | some fields =>
    have : extractReturns (some fields) =
        fields.map (fun f => { typ := typeToString f.typ, Description := "" }) := by
      simpa using foldl_retStep fields []
    rw [this] at hr
    obtain ⟨f, _, rfl⟩ := List.mem_map.mp hr
    rfl

theorem analyseFunctionDecl_Returns_description (fn : DocFunc) (r : ReturnInfo)
    (hr : r ∈ (analyseFunctionDecl fn).Returns) : r.Description = "" := by
  unfold analyseFunctionDecl at hr
  cases h : fn.Decl with
  | none => rw [h] at hr; cases hr
  | some decl =>
    rw [h] at hr
    exact extractReturns_description decl.typ.Results r hr

/-- C10: every `ReturnInfo` of every function or method entry of a
`PackageInfo` produced by `analysePackage` has an empty `Description` —
return entries are built from the type text only. -/
theorem returns_description_empty (dir : String) (pkgs : List (String × DocPackage))
    (info : PackageInfo) (hok : analysePackage dir pkgs = Except.ok info)
    (f : FunctionInfo) (hf : f ∈ info.Functions)
    (r : ReturnInfo) (hr : r ∈ f.Returns) : r.Description = "" := by
  obtain ⟨name, dp, hfind, rfl⟩ := analysePackage_ok hok
  rw [buildPackageInfo_Functions] at hf
  rcases List.mem_append.mp hf with hf | hf
  · obtain ⟨fn, _, rfl⟩ := List.mem_map.mp hf
    exact analyseFunctionDecl_Returns_description fn r hr
  · obtain ⟨typ, _, hmem⟩ := List.mem_flatMap.mp hf
    obtain ⟨mth, _, rfl⟩ := List.mem_map.mp hmem
    exact analyseFunctionDecl_Returns_description mth r hr

def dfC10 : DocFunc :=
  { Name := "F", Doc := "",
    Decl := some
      { Recv := none, Name := "F",
        typ := { Params := some [Field.mk ["x"] (Expr.ident "int") none],
                 Results := some [Field.mk ["a", "b"] (Expr.ident "int") none] } } }

def pkgsC10 : List (String × DocPackage) :=
  [("p", { Doc := "", Funcs := [dfC10], Types := [], Consts := [], Vars := [],
           FileImports := [] })]

def infoC10 : PackageInfo :=
  match analysePackage "dir10" pkgsC10 with
  | Except.ok info => info
  | Except.error _ => emptyPackageInfo

/-- C10 witness: a function with named returns still gets entries with an
empty description. -/
theorem returns_description_empty_witness :
    ({ typ := "int", Description := "" } : ReturnInfo).Description = "" :=
  returns_description_empty "dir10" pkgsC10 infoC10 rfl
    (analyseFunctionDecl dfC10)
    (show analyseFunctionDecl dfC10 ∈ [analyseFunctionDecl dfC10] from
      List.mem_singleton_self _)
    { typ := "int", Description := "" }
    (show ({ typ := "int", Description := "" } : ReturnInfo) ∈
        [({ typ := "int", Description := "" } : ReturnInfo)] from
      List.mem_singleton_self _)

end Docura
